import Mathlib

/-!
Verification of the BSCR observer/date library.

The C++ sources are modelled by a shallow embedding:

* `Date.cpp` / `Date.h` — a calendar value type built on `std::chrono`.
  Machine integers become `Int`/`Nat`; the C++ `/` on `int` (truncation
  toward zero, always with a positive literal divisor here) becomes `cdiv`.
* `Signal.h` — a broadcast primitive over weak references, modelled by a
  list of connection identities plus an explicit set of connections whose
  strong handle is still held (the heap's reference counts).
* `Observable.h` / `ObservableValue.h` — registry keyed by observer
  identity, observer-side tracked set, and the get/set value wrapper.

Stateful C++ objects become explicit state passing over a `World` record;
object addresses become `Nat` identities.
-/

namespace BSCR

/-- C++ integer division on `int` (truncation toward zero), for a positive
divisor.  Every division in the modelled sources has a positive literal
divisor, so this matches the C++ semantics exactly. -/
def cdiv (a b : Int) : Int :=
  if 0 ≤ a then ((a.toNat / b.toNat : Nat) : Int)
  else -(((-a).toNat / b.toNat : Nat) : Int)

/-- `std::chrono::year::is_leap()`: divisible by 4 and (not by 100 or by 400).
Used by `Date::lastDayOfMonth` (Date.cpp line 205) and by the validity check
of `std::chrono::year_month_day`. -/
def isLeapYear (y : Int) : Bool :=
  y % 4 == 0 && (y % 100 != 0 || y % 400 == 0)

/-- `Date::lastDayOfMonth` (Date.cpp lines 202-209): a table of month
lengths, with 29 returned for February of a leap year.  The same values
are the day bounds used by `std::chrono::year_month_day::ok()`. -/
def lastDayOfMonth (y : Int) (m : Nat) : Nat :=
  if isLeapYear y && m == 2 then 29
  else [31, 28, 31, 30, 31, 30, 31, 31, 30, 31, 30, 31].getD (m - 1) 0

/-- `std::chrono::year::ok()`: the year is in the representable range. -/
def yearOk (y : Int) : Bool :=
  -32767 ≤ y && y ≤ 32767

/-- `std::chrono::year_month_day::ok()`: year and month are in range and the
day lies in `[1, last day of that month]`.  This is the check performed by
the `Date(Year, Month, Day)` constructor (Date.cpp line 17) and by the
clamping branches of the duration operators. -/
def ymdOk (y : Int) (m d : Nat) : Bool :=
  yearOk y && (1 ≤ m && m ≤ 12) && (1 ≤ d && d ≤ 31) &&
    (1 ≤ d && d ≤ lastDayOfMonth y m)

/-- `std::chrono::sys_days(year_month_day).time_since_epoch().count()` —
the serial number computed by `Date::resetSerial` (Date.cpp line 198):
the count of days from 1970-01-01 to the given proleptic Gregorian date
(Howard Hinnant's `days_from_civil`, which is what the chrono conversion
computes). -/
def daysFromCivil (y : Int) (m d : Nat) : Int :=
  let yAdj : Int := if m ≤ 2 then y - 1 else y
  let era : Int := cdiv (if 0 ≤ yAdj then yAdj else yAdj - 399) 400
  let yoe : Int := yAdj - era * 400
  let doy : Int := cdiv (153 * (((m + 9) % 12 : Nat) : Int) + 2) 5 + (d : Int) - 1
  let doe : Int := yoe * 365 + cdiv yoe 4 - cdiv yoe 100 + doy
  era * 146097 + doe - 719468

/-- The state of a `Date` object: the `year_month_day_` field and the cached
`serial_number_` field. -/
structure DateM where
  y : Int
  m : Nat
  d : Nat
  serial : Int
deriving DecidableEq, Repr

/-- A `Date` whose fields hold `(y, m, d)` and whose serial number has been
set by `resetSerial` (as every constructor and mutator of `Date` does). -/
def mkDate (y : Int) (m d : Nat) : DateM :=
  ⟨y, m, d, daysFromCivil y m d⟩

/-- `Date::Date(Year, Month, Day)` (Date.cpp lines 14-22): stores the triple,
throws (`none`) if `year_month_day_.ok()` fails, otherwise computes the
serial number.  No partially-built object escapes on failure. -/
def mkDateChecked (y : Int) (m d : Nat) : Option DateM :=
  if ymdOk y m d then some (mkDate y m d) else none

/-- `Date::Date()` (Date.cpp lines 7-11): January 1, 1900, then `resetSerial`. -/
def defaultDate : DateM := mkDate 1900 1 1

/-- `Date::operator==` (Date.cpp lines 170-173): serial number equality. -/
def DateM.eqb (a b : DateM) : Bool := a.serial == b.serial

/-- `Date::operator>` (Date.cpp lines 175-178). -/
def DateM.gtb (a b : DateM) : Bool := b.serial < a.serial

/-- `Date::operator<` (Date.cpp lines 180-183). -/
def DateM.ltb (a b : DateM) : Bool := a.serial < b.serial

/-- `Date::operator>=` (Date.cpp lines 185-188). -/
def DateM.geb (a b : DateM) : Bool := b.serial ≤ a.serial

/-- `Date::operator<=` (Date.cpp lines 190-193). -/
def DateM.leb (a b : DateM) : Bool := a.serial ≤ b.serial

/-- `std::chrono::year_month + months` normalization (used by
`year_month_day += months`): month arithmetic with carry into the year,
written exactly as the standard specifies it, with C++ truncated division. -/
def addMonths (y : Int) (m : Nat) (k : Int) : Int × Nat :=
  let dmi : Int := (m : Int) - 1 + k
  let dy : Int := cdiv (if 0 ≤ dmi then dmi else dmi - 11) 12
  (y + dy, (dmi - dy * 12 + 1).toNat)

/-- `Date::operator+=(const Months&)` (Date.cpp lines 91-100):
`year_month_day_ += months` (month/year arithmetic, day unchanged), then if
the result is not a valid date, the day is replaced by
`lastDayOfMonth(year_month_day_)`; finally `resetSerial`.
Subtraction (`operator-=`) is the same with a negated count. -/
def DateM.addMonthsClamped (a : DateM) (k : Int) : DateM :=
  let ym := addMonths a.y a.m k
  let d' := if ymdOk ym.1 ym.2 a.d then a.d else lastDayOfMonth ym.1 ym.2
  mkDate ym.1 ym.2 d'

/-- `Date::operator+=(const Years&)` (Date.cpp lines 67-76): year shifted,
month and day unchanged, then the same day clamp and `resetSerial`. -/
def DateM.addYearsClamped (a : DateM) (k : Int) : DateM :=
  let d' := if ymdOk (a.y + k) a.m a.d then a.d else lastDayOfMonth (a.y + k) a.m
  mkDate (a.y + k) a.m d'

/-- Acquiring a non-recursive `std::mutex`: fails (undefined
behavior/deadlock) if the calling thread already holds it. -/
def acquire (held : List Nat) (l : Nat) : Option (List Nat) :=
  if l ∈ held then none else some (l :: held)

/-- Single-threaded lock trace of `Date::operator+(const Months&)`
(Date.cpp lines 141-146).  Lock `0` is `this->mtx_`, lock `1` is the mutex
of the local copy `date`.  The operator takes a `lock_guard` on
`this->mtx_`, then `Date date = *this` runs the copy constructor, whose
`operator=` (lines 29-40) calls `std::lock(rhs.mtx_, mtx_)` — and
`rhs.mtx_` is `this->mtx_`, which this thread already holds.  Only if every
acquisition succeeded would the clamped arithmetic result be returned. -/
def datePlusMonthsRun (a : DateM) (k : Int) : Option DateM := do
  let h0 ← acquire [] 0
  let h1 ← acquire h0 0
  let _ ← acquire h1 1
  pure (a.addMonthsClamped k)

/-- Spec-side description (`isRealCalendarDate`): the triple denotes a real
proleptic Gregorian calendar date — month in 1..12 and day between 1 and
the length of that month in that year. -/
def isRealCalendarDate (y : Int) (m d : Nat) : Prop :=
  1 ≤ m ∧ m ≤ 12 ∧ 1 ≤ d ∧ d ≤ lastDayOfMonth y m

/-- Calendar (lexicographic year, month, day) strict order on date states. -/
def calLt (a b : DateM) : Prop :=
  a.y < b.y ∨ (a.y = b.y ∧ (a.m < b.m ∨ (a.m = b.m ∧ a.d < b.d)))

instance (y : Int) (m d : Nat) : Decidable (isRealCalendarDate y m d) := by
  unfold isRealCalendarDate; infer_instance

/-! ## Signal, Observable, Observer

`Signal<_args...>` (Signal.h) stores `std::vector<std::weak_ptr<SlotType>>`.
A connection (one `std::make_shared<SlotType>` allocation) is identified by
a pair `(serial, target)`: a globally fresh allocation serial plus the
observer identity the slot closes over (`Observable::registerObserver`
builds the slot `[observer](args...){ observer->onNotify(args...); }`).

Whether a weak reference can be resolved is a property of the heap: the
`World` record carries `strongRefs`, the list of connections whose strong
handle (`ConnectionType`, a `shared_ptr`) is still held.  The sole strong
holder in this program is the `connections_` map of an `Observable`
(`connect`'s return value is move-stored there), so a registry erase drops
the last strong reference. -/

/-- A connection identity: allocation serial and the observer captured by
the slot. -/
abbrev Conn := Nat × Nat

/-- The state of a `Signal`: its `connections_` vector of weak references,
in push-back order. -/
structure SignalSt where
  connections : List Conn
deriving DecidableEq, Repr

/-- `Signal::connect` (Signal.h): wraps the slot in a fresh shared handle
and appends a weak reference to it; the strong handle is returned to the
caller.  The fresh allocation itself is recorded by the caller
(`registerObserver`) in the `World`'s heap. -/
def SignalSt.connect (s : SignalSt) (c : Conn) : SignalSt :=
  ⟨s.connections ++ [c]⟩

/-- `Signal::disconnect` (Signal.h): erase every tracked weak reference
whose resolved strong handle equals the argument handle.  `lv c` says
whether connection `c` still has a strong holder; a weak reference to a
dead connection resolves to null, which never equals the (non-null)
argument handle. -/
def SignalSt.disconnect (s : SignalSt) (lv : Conn → Bool) (h : Conn) : SignalSt :=
  ⟨s.connections.filter (fun c => !(lv c && c == h))⟩

/-- `Signal::emit` (Signal.h): traverse the weak references in order; each
resolvable one has its slot invoked with the arguments and is kept, each
unresolvable one is marked and then purged by the final `erase { remove_if }`.
Returns the invocation sequence (connection, arguments) and the new state. -/
def SignalSt.emit {α : Type} (s : SignalSt) (lv : Conn → Bool) (args : α) :
    List (Conn × α) × SignalSt :=
  ((s.connections.filter lv).map (fun c => (c, args)), ⟨s.connections.filter lv⟩)

/-- The state of an `Observable`: its `signal_` and its `connections_`
registry (`std::unordered_map<ObserverType*, ConnectionType>`), modelled as
an association list from observer identity to the strong connection handle. -/
structure ObservableSt where
  signal : SignalSt
  registry : List (Nat × Conn)
deriving DecidableEq, Repr

/-- The state of an `Observer`: its `observables_` tracked set
(`std::set<ObservableType*>`). -/
structure ObserverSt where
  observables : List Nat
deriving DecidableEq, Repr

/-- The whole heap: the next allocation serial, the connections whose
strong handle is still held, every `Observable`'s state (all observables
exist, initially empty), and the live `Observer` objects. -/
structure World where
  nextConn : Nat
  strongRefs : List Conn
  obbs : Nat → ObservableSt
  obs : Nat → Option ObserverSt

/-- `unordered_map::find` on the registry association list. -/
def rlookup (r : List (Nat × Conn)) (o : Nat) : Option Conn :=
  match r with
  | [] => none
  | (k, v) :: t => if k = o then some v else rlookup t o

/-- The keys of a registry. -/
def rkeys (r : List (Nat × Conn)) : List Nat := r.map Prod.fst

/-- The registry of observable `b`. -/
def getReg (w : World) (b : Nat) : List (Nat × Conn) := (w.obbs b).registry

/-- The weak-reference list of observable `b`'s signal. -/
def getConns (w : World) (b : Nat) : List Conn := (w.obbs b).signal.connections

/-- Whether a weak reference to connection `c` can still be resolved:
some strong handle for it is still held. -/
def live (w : World) (c : Conn) : Bool := decide (c ∈ w.strongRefs)

/-- `Observable::registerObserver` (Observable.h lines 97-109): if the
observer has no registry entry, build the slot capturing it, `connect` it
to the signal (a fresh allocation, strong handle held by the registry) and
store the connection under the observer's identity; otherwise do nothing. -/
def registerObserver (w : World) (b o : Nat) : World :=
  match rlookup (w.obbs b).registry o with
  | some _ => w
  | none =>
    let c : Conn := (w.nextConn, o)
    { w with
      nextConn := w.nextConn + 1
      strongRefs := c :: w.strongRefs
      obbs := fun b' =>
        if b' = b then
          { signal := (w.obbs b).signal.connect c
            registry := (w.obbs b).registry ++ [(o, c)] }
        else w.obbs b' }

/-- `Observable::unregisterObserver` (Observable.h lines 114-125): if the
observer has a registry entry, `disconnect` its connection from the signal
(while the registry still holds the strong handle) and then erase the
entry — dropping the last strong reference to the connection. -/
def unregisterObserver (w : World) (b o : Nat) : World :=
  match rlookup (w.obbs b).registry o with
  | none => w
  | some c =>
    { w with
      strongRefs := w.strongRefs.erase c
      obbs := fun b' =>
        if b' = b then
          { signal := (w.obbs b).signal.disconnect (live w) c
            registry := (w.obbs b).registry.filter (fun e => !(e.1 == o)) }
        else w.obbs b' }

/-- `Observable::notifyObservers` → `Signal::emit`: the sequence of
observer identities whose `onNotify` is invoked by one notification on
observable `b`, in traversal order. -/
def notifyList (w : World) (b : Nat) : List Nat :=
  ((((w.obbs b).signal.emit (live w) ())).1).map (fun p => p.1.2)

/-- `Observable::notifyObservers`: the world after one notification
(`emit` purges the unresolvable weak references of `b`'s signal). -/
def notifyWorld (w : World) (b : Nat) : World :=
  { w with obbs := fun b' =>
      if b' = b then
        { w.obbs b with signal := ((w.obbs b).signal.emit (live w) ()).2 }
      else w.obbs b' }

/-- `std::set::insert` on the tracked set. -/
def insertSet (x : Nat) (l : List Nat) : List Nat :=
  if x ∈ l then l else l ++ [x]

/-- The calls a client (or the `Observer` destructor) can make. -/
inductive Op where
  | birth (o : Nat)
  | regW (o : Nat) (b : Nat)
  | unregW (o : Nat) (b : Nat)
  | destroy (o : Nat)
deriving DecidableEq, Repr

/-- One step of the system.

* `birth o` — constructing an `Observer` with identity `o` (fresh tracked
  set); a no-op if that identity is already in use.
* `regW o b` — `Observer::registerWith` (Observable.h lines 49-52):
  `registerObserver(this)` on the observable, then insert it into the
  tracked set.  Callable only on a live observer.
* `unregW o b` — `Observer::unregisterWith` (lines 57-60):
  `unregisterObserver(this)`, then erase from the tracked set.
* `destroy o` — `Observer::~Observer` (lines 32-37): call
  `unregisterObserver(this)` on every observable in the tracked set, then
  the object ceases to exist. -/
def applyOp (w : World) : Op → World
  | .birth o =>
    if (w.obs o).isSome then w
    else { w with obs := fun o' => if o' = o then some ⟨[]⟩ else w.obs o' }
  | .regW o b =>
    match w.obs o with
    | none => w
    | some ts =>
      let w' := registerObserver w b o
      { w' with obs := fun o' =>
          if o' = o then some ⟨insertSet b ts.observables⟩ else w'.obs o' }
  | .unregW o b =>
    match w.obs o with
    | none => w
    | some ts =>
      let w' := unregisterObserver w b o
      { w' with obs := fun o' =>
          if o' = o then some ⟨ts.observables.filter (fun b' => !(b' == b))⟩
          else w'.obs o' }
  | .destroy o =>
    match w.obs o with
    | none => w
    | some ts =>
      let w' := ts.observables.foldl (fun w'' b => unregisterObserver w'' b o) w
      { w' with obs := fun o' => if o' = o then none else w'.obs o' }

/-- The initial heap: no allocations, no observers, every observable empty. -/
def initWorld : World :=
  ⟨0, [], fun _ => ⟨⟨[]⟩, []⟩, fun _ => none⟩

/-- The world reached by a sequence of calls from the initial heap. -/
def run (ops : List Op) : World := ops.foldl applyOp initWorld

/-- A world that some call sequence can produce. -/
def Reachable (w : World) : Prop := ∃ ops, w = run ops

/-! ## ObservableValue -/

/-- The state of an `ObservableValue<T>` (ObservableValue.h): the stored
`value_` (its `Observable` part is modelled separately by `World`). -/
structure ObservableValueM (α : Type) where
  value : α
deriving DecidableEq, Repr

/-- `ObservableValue::set` (ObservableValue.h): under the lock, the stored
value is overwritten only if the argument differs from it (`value != value_`,
which C++20 rewrites to `!(value == value_)`); after the lock is released,
`notifyObservers(value_)` is called unconditionally.  Returns the new
state, whether the store was written, and the arguments of the
notifications issued (always exactly one, carrying the stored value). -/
def ObservableValueM.setTrace {α : Type} [DecidableEq α]
    (s : ObservableValueM α) (v : α) : ObservableValueM α × Bool × List α :=
  if v ≠ s.value then (⟨v⟩, true, [v]) else (s, false, [s.value])

/-- `ObservableValue::get`. -/
def ObservableValueM.get {α : Type} (s : ObservableValueM α) : α := s.value

/-! ## Structural invariants of the heap -/

/-- Structural well-formedness of the heap (no reference to the observer
table): registries are maps with unique keys holding pairwise distinct
strong handles, every strong handle is held by exactly the registry that
created it, signal lists have no duplicates, and allocation serials are
below the allocation counter. -/
structure SWF (w : World) : Prop where
  strongNodup : w.strongRefs.Nodup
  keysNodup : ∀ b, (rkeys (getReg w b)).Nodup
  connsNodup : ∀ b, (getConns w b).Nodup
  regTarget : ∀ b o c, (o, c) ∈ getReg w b → c.2 = o
  regConn : ∀ b o c, (o, c) ∈ getReg w b → c ∈ getConns w b
  regStrong : ∀ b o c, (o, c) ∈ getReg w b → c ∈ w.strongRefs
  strongReg : ∀ c, c ∈ w.strongRefs → ∃ b, (c.2, c) ∈ getReg w b
  regValUnique : ∀ b1 b2 o1 o2 c,
    (o1, c) ∈ getReg w b1 → (o2, c) ∈ getReg w b2 → b1 = b2
  connFresh : ∀ b c, c ∈ getConns w b → c.1 < w.nextConn
  liveConnReg : ∀ b c, c ∈ getConns w b → c ∈ w.strongRefs → (c.2, c) ∈ getReg w b

/-- Full well-formedness: structural invariants plus the bidirectional
mirror between tracked sets and registries, and the fact that only live
observers hold registry entries. -/
structure WF (w : World) extends SWF w : Prop where
  mirror : ∀ o ts, w.obs o = some ts →
    ∀ b, b ∈ ts.observables ↔ o ∈ rkeys (getReg w b)
  keysAlive : ∀ b o, o ∈ rkeys (getReg w b) → (w.obs o).isSome

/-! ## Proof-side decomposition of the serial-number computation -/

/-- The adjusted (March-based) year used by `daysFromCivil`. -/
def yAdjOf (y : Int) (m : Nat) : Int := if m ≤ 2 then y - 1 else y

/-- The 400-year era of an adjusted year. -/
def eraOf (yA : Int) : Int := cdiv (if 0 ≤ yA then yA else yA - 399) 400

/-- The year of the era, in `[0, 399]`. -/
def yoeOf (yA : Int) : Int := yA - eraOf yA * 400

/-- Days from the serial epoch offset to March 1 of the adjusted year
(without the epoch shift). -/
def marchBase (yA : Int) : Int :=
  eraOf yA * 146097 + yoeOf yA * 365 + cdiv (yoeOf yA) 4 - cdiv (yoeOf yA) 100

/-- Day-of-March-year of a month/day pair, in `[0, 365]`. -/
def doyOf (m d : Nat) : Int :=
  cdiv (153 * (((m + 9) % 12 : Nat) : Int) + 2) 5 + (d : Int) - 1

/-! ## Registry lookup lemmas -/

theorem rlookup_eq_none_iff {r : List (Nat × Conn)} {o : Nat} :
    rlookup r o = none ↔ o ∉ rkeys r := by
  induction r with
  | nil => simp [rlookup, rkeys]
  | cons e t ih =>
    obtain ⟨k, v⟩ := e
    by_cases h : k = o
    · subst h; simp [rlookup, rkeys]
    · simp only [rlookup, rkeys, List.map_cons, List.mem_cons, if_neg h] at ih ⊢
      rw [ih]
      constructor
      · intro hn hc
        rcases hc with hc | hc
        · exact h hc.symm
        · exact hn hc
      · intro hn hc
        exact hn (Or.inr hc)

theorem rlookup_mem {r : List (Nat × Conn)} {o : Nat} {c : Conn}
    (h : rlookup r o = some c) : (o, c) ∈ r := by
  induction r with
  | nil => simp [rlookup] at h
  | cons e t ih =>
    obtain ⟨k, v⟩ := e
    by_cases hk : k = o
    · subst hk; simp [rlookup] at h; simp [h]
    · simp [rlookup, hk] at h; simp [ih h]

theorem rlookup_isSome_of_mem_keys {r : List (Nat × Conn)} {o : Nat}
    (h : o ∈ rkeys r) : ∃ c, rlookup r o = some c := by
  cases hl : rlookup r o with
  | none => exact absurd (rlookup_eq_none_iff.mp hl) (by simp [h])
  | some c => exact ⟨c, rfl⟩

theorem mem_keys_of_mem {r : List (Nat × Conn)} {o : Nat} {c : Conn}
    (h : (o, c) ∈ r) : o ∈ rkeys r := by
  simp only [rkeys, List.mem_map]
  exact ⟨(o, c), h, rfl⟩

/-- In a registry with duplicate-free keys, a key determines its entry. -/
theorem keysNodup_unique {r : List (Nat × Conn)} {o : Nat} {c c' : Conn}
    (hnd : (rkeys r).Nodup) (h : (o, c) ∈ r) (h' : (o, c') ∈ r) : c = c' := by
  induction r with
  | nil => simp at h
  | cons e t ih =>
    obtain ⟨k, v⟩ := e
    simp only [rkeys, List.map_cons, List.nodup_cons] at hnd
    rcases List.mem_cons.mp h with he | ht
    · rcases List.mem_cons.mp h' with he' | ht'
      · cases he; cases he'; rfl
      · cases he
        exact absurd (mem_keys_of_mem ht') (by simpa [rkeys] using hnd.1)
    · rcases List.mem_cons.mp h' with he' | ht'
      · cases he'
        exact absurd (mem_keys_of_mem ht) (by simpa [rkeys] using hnd.1)
      · exact ih hnd.2 ht ht'

/-! ## Generic list counting helpers -/

theorem count_eq_one_of_nodup_mem {α : Type} [BEq α] [LawfulBEq α]
    {l : List α} {a : α} (hnd : l.Nodup) (hm : a ∈ l) : l.count a = 1 := by
  induction l with
  | nil => simp at hm
  | cons x t ih =>
    simp only [List.nodup_cons] at hnd
    rcases List.mem_cons.mp hm with rfl | hm'
    · rw [List.count_cons_self]
      have h0 : t.count a = 0 := List.count_eq_zero.mpr hnd.1
      omega
    · have hne : x ≠ a := fun h => hnd.1 (h ▸ hm')
      rw [List.count_cons_of_ne (fun h => hne h.symm)]
      exact ih hnd.2 hm'

/-! ## Date basics -/

theorem lastDayOfMonth_le (y : Int) (m : Nat) : lastDayOfMonth y m ≤ 31 := by
  unfold lastDayOfMonth
  split
  · omega
  · by_cases h : m - 1 < 12
    · have hb : ∀ i, i < 12 →
          [31, 28, 31, 30, 31, 30, 31, 31, 30, 31, 30, 31].getD i 0 ≤ 31 := by decide
      exact hb _ h
    · rw [List.getD_eq_default]
      · omega
      · simp; omega

theorem ymdOk_iff {y : Int} {m d : Nat} (hy : yearOk y = true) :
    ymdOk y m d = true ↔ isRealCalendarDate y m d := by
  have hle := lastDayOfMonth_le y m
  simp only [ymdOk, isRealCalendarDate, hy, Bool.true_and, Bool.and_eq_true,
    decide_eq_true_eq]
  omega

/-! ## Claim theorems: value type and simple no-ops -/

/-- C1: for every call `ObservableValue<T>.set(v)`, the stored value is
overwritten exactly when `v` differs from the current value under `T`'s
equality, and one notification is issued afterward unconditionally,
whether or not the stored value changed. -/
theorem c1_set_guarded_store_unconditional_notify {α : Type} [DecidableEq α]
    (s : ObservableValueM α) (v : α) :
    ((s.setTrace v).2.1 = true ↔ v ≠ s.value) ∧
    (s.setTrace v).2.2 = [(s.setTrace v).1.value] ∧
    ((s.setTrace v).2.2).length = 1 := by
  by_cases h : v = s.value <;> simp [ObservableValueM.setTrace, h]

theorem c1_set_guarded_store_unconditional_notify_witness :
    ((((ObservableValueM.mk (3 : Nat)).setTrace 3).2.1 = true ↔
        (3 : Nat) ≠ (ObservableValueM.mk (3 : Nat)).value) ∧
      ((ObservableValueM.mk (3 : Nat)).setTrace 3).2.2 =
        [(((ObservableValueM.mk (3 : Nat)).setTrace 3).1).value] ∧
      ((((ObservableValueM.mk (3 : Nat)).setTrace 3).2.2)).length = 1) :=
  c1_set_guarded_store_unconditional_notify (ObservableValueM.mk (3 : Nat)) 3

/-- C2: `Signal::emit` resolves every tracked weak reference in turn,
invokes each resolvable slot exactly once with the given arguments, and
after the traversal purges exactly the unresolvable entries, keeping every
resolvable one. -/
theorem c2_emit_invokes_live_once_purges_dead {α : Type} (s : SignalSt)
    (lv : Conn → Bool) (args : α) (c : Conn) (hnd : s.connections.Nodup) :
    (∀ p ∈ (s.emit lv args).1, p.2 = args) ∧
    (lv c = true → c ∈ s.connections →
      (((s.emit lv args).1.map Prod.fst).count c = 1 ∧
        c ∈ (s.emit lv args).2.connections)) ∧
    (lv c = false → c ∉ (s.emit lv args).2.connections ∧
      c ∉ (s.emit lv args).1.map Prod.fst) ∧
    ((s.emit lv args).2.connections = s.connections.filter lv) := by
  refine ⟨?_, fun hl hm => ⟨?_, ?_⟩, fun hl => ⟨?_, ?_⟩, rfl⟩
  · intro p hp
    simp only [SignalSt.emit, List.mem_map] at hp
    obtain ⟨c', _, hc'⟩ := hp
    exact (congrArg Prod.snd hc').symm ▸ rfl
  · have h1 : (s.emit lv args).1.map Prod.fst = s.connections.filter lv := by
      simp [SignalSt.emit, List.map_map, Function.comp_def]
    rw [h1]
    exact count_eq_one_of_nodup_mem (hnd.filter lv) (List.mem_filter.mpr ⟨hm, hl⟩)
  · exact List.mem_filter.mpr ⟨hm, hl⟩
  · intro hm
    have := (List.mem_filter.mp hm).2
    simp [hl] at this
  · intro hm
    have h1 : (s.emit lv args).1.map Prod.fst = s.connections.filter lv := by
      simp [SignalSt.emit, List.map_map, Function.comp_def]
    rw [h1] at hm
    have := (List.mem_filter.mp hm).2
    simp [hl] at this

theorem c2_emit_invokes_live_once_purges_dead_witness :
    (∀ p ∈ ((SignalSt.mk [(0, 4), (1, 5)]).emit (fun c => c.1 == 0) ()).1,
      p.2 = ()) ∧
    ((fun c : Conn => c.1 == 0) (0, 4) = true →
      (0, 4) ∈ (SignalSt.mk [(0, 4), (1, 5)]).connections →
      ((((SignalSt.mk [(0, 4), (1, 5)]).emit (fun c => c.1 == 0) ()).1.map
          Prod.fst).count (0, 4) = 1 ∧
        (0, 4) ∈
          (((SignalSt.mk [(0, 4), (1, 5)]).emit (fun c => c.1 == 0) ()).2).connections)) ∧
    ((fun c : Conn => c.1 == 0) (0, 4) = false →
      (0, 4) ∉
          (((SignalSt.mk [(0, 4), (1, 5)]).emit (fun c => c.1 == 0) ()).2).connections ∧
        (0, 4) ∉
          ((SignalSt.mk [(0, 4), (1, 5)]).emit (fun c => c.1 == 0) ()).1.map Prod.fst) ∧
    ((((SignalSt.mk [(0, 4), (1, 5)]).emit (fun c => c.1 == 0) ()).2).connections =
      (SignalSt.mk [(0, 4), (1, 5)]).connections.filter (fun c => c.1 == 0)) :=
  c2_emit_invokes_live_once_purges_dead (SignalSt.mk [(0, 4), (1, 5)])
    (fun c => c.1 == 0) () (0, 4) (by decide)

/-- C5: unregistering an observer with no registry entry, registering an
already-registered observer, and disconnecting a handle the signal does not
track (for instance one obtained from a different signal) are silent
no-ops: each returns the state unchanged (in particular the registry and
the weak-reference list are unchanged), and none can fail. -/
theorem c5_unknown_operations_are_noops (w : World) (b o o₂ : Nat)
    (s : SignalSt) (lv : Conn → Bool) (h : Conn)
    (hu : o ∉ rkeys (getReg w b)) (hr : o₂ ∈ rkeys (getReg w b))
    (hd : h ∉ s.connections) :
    unregisterObserver w b o = w ∧ registerObserver w b o₂ = w ∧
      s.disconnect lv h = s := by
  refine ⟨?_, ?_, ?_⟩
  · have hl : rlookup (w.obbs b).registry o = none :=
      rlookup_eq_none_iff.mpr (by simpa [getReg] using hu)
    unfold unregisterObserver
    rw [hl]
  · obtain ⟨c, hc⟩ := rlookup_isSome_of_mem_keys (by simpa [getReg] using hr)
    unfold registerObserver
    rw [hc]
  · cases s with
  | mk conns =>
    simp only [SignalSt.disconnect, SignalSt.mk.injEq]
    rw [List.filter_eq_self]
    intro c hc
    have hne : c ≠ h := fun hch => hd (hch ▸ hc)
    simp [hne]

theorem c5_unknown_operations_are_noops_witness :
    (unregisterObserver (run [Op.birth 0, Op.regW 0 5]) 5 7 =
        run [Op.birth 0, Op.regW 0 5] ∧
      registerObserver (run [Op.birth 0, Op.regW 0 5]) 5 0 =
        run [Op.birth 0, Op.regW 0 5] ∧
      SignalSt.disconnect (SignalSt.mk [(0, 0)]) (fun _ => true) (3, 3) =
        SignalSt.mk [(0, 0)]) :=
  c5_unknown_operations_are_noops (run [Op.birth 0, Op.regW 0 5]) 5 7 0
    (SignalSt.mk [(0, 0)]) (fun _ => true) (3, 3) (by decide) (by decide)
    (by decide)

/-- C6: the `Date(Year, Month, Day)` constructor fails (throws, so no
partially built object escapes) exactly when the triple is not a real
calendar date; in particular `Date(2023, 2, 29)` fails (2023 is not a leap
year) while `Date(2024, 2, 29)` succeeds. -/
theorem c6_ctor_fails_iff_invalid (y : Int) (m d : Nat) (hy : yearOk y = true) :
    ((mkDateChecked y m d).isSome ↔ isRealCalendarDate y m d) ∧
    mkDateChecked 2023 2 29 = none ∧
    mkDateChecked 2024 2 29 = some (mkDate 2024 2 29) := by
  refine ⟨?_, by decide, by decide⟩
  unfold mkDateChecked
  split
  case isTrue hok => simpa using (ymdOk_iff hy).mp hok
  case isFalse hok =>
    simp only [Option.isSome_none, Bool.false_eq_true, false_iff]
    intro hreal
    exact hok ((ymdOk_iff hy).mpr hreal)

theorem c6_ctor_fails_iff_invalid_witness :
    (((mkDateChecked 2023 2 29).isSome ↔ isRealCalendarDate 2023 2 29) ∧
      mkDateChecked 2023 2 29 = none ∧
      mkDateChecked 2024 2 29 = some (mkDate 2024 2 29)) :=
  c6_ctor_fails_iff_invalid 2023 2 29 (by decide)

/-- C7: evidence around month arithmetic.  The clamping logic of
`Date::operator+=(const Months&)` does produce `2023-02-28` from
`2023-01-31 + 1 month` and `2024-02-29` from `2024-01-31 + 1 month` (and
clamps subtraction the same way) — but the `Date::operator+(const Months&)`
the claim's expressions call first locks `mtx_` and then copy-constructs
the result from `*this`, whose `operator=` locks the same non-recursive
mutex again, so the single-threaded lock trace of the claimed expression
aborts (deadlock / undefined behavior) instead of returning a value. -/
theorem c7_month_addition_clamps_but_plus_deadlocks :
    datePlusMonthsRun (mkDate 2023 1 31) 1 = none ∧
    (mkDate 2023 1 31).addMonthsClamped 1 = mkDate 2023 2 28 ∧
    (mkDate 2024 1 31).addMonthsClamped 1 = mkDate 2024 2 29 ∧
    (mkDate 2023 3 31).addMonthsClamped (-1) = mkDate 2023 2 28 ∧
    (mkDate 2024 2 29).addYearsClamped 1 = mkDate 2025 2 28 := by
  refine ⟨rfl, by decide, by decide, by decide, by decide⟩

/-- C10: the default `Date` constructor produces January 1, 1900, and its
serial number is the (negative) day count of 1900-01-01 from the
`sys_days` epoch. -/
theorem c10_default_date_is_1900_01_01 :
    defaultDate = DateM.mk 1900 1 1 (-25567) ∧
    defaultDate.serial = daysFromCivil 1900 1 1 := by
  exact ⟨by decide, rfl⟩

/-! ## Branch lemmas for the Observable operations -/

theorem registerObserver_found {w : World} {b o : Nat} {c : Conn}
    (h : rlookup (w.obbs b).registry o = some c) :
    registerObserver w b o = w := by
  unfold registerObserver; rw [h]

theorem registerObserver_new {w : World} {b o : Nat}
    (h : rlookup (w.obbs b).registry o = none) :
    registerObserver w b o =
      { w with
        nextConn := w.nextConn + 1
        strongRefs := (w.nextConn, o) :: w.strongRefs
        obbs := fun b' =>
          if b' = b then
            { signal := (w.obbs b).signal.connect (w.nextConn, o)
              registry := (w.obbs b).registry ++ [(o, (w.nextConn, o))] }
          else w.obbs b' } := by
  unfold registerObserver; rw [h]

theorem unregisterObserver_noentry {w : World} {b o : Nat}
    (h : rlookup (w.obbs b).registry o = none) :
    unregisterObserver w b o = w := by
  unfold unregisterObserver; rw [h]

theorem unregisterObserver_entry {w : World} {b o : Nat} {c : Conn}
    (h : rlookup (w.obbs b).registry o = some c) :
    unregisterObserver w b o =
      { w with
        strongRefs := w.strongRefs.erase c
        obbs := fun b' =>
          if b' = b then
            { signal := (w.obbs b).signal.disconnect (live w) c
              registry := (w.obbs b).registry.filter (fun e => !(e.1 == o)) }
          else w.obbs b' } := by
  unfold unregisterObserver; rw [h]

theorem obs_registerObserver (w : World) (b o : Nat) :
    (registerObserver w b o).obs = w.obs := by
  cases h : rlookup (w.obbs b).registry o with
  | none => rw [registerObserver_new h]
  | some c => rw [registerObserver_found h]

theorem obs_unregisterObserver (w : World) (b o : Nat) :
    (unregisterObserver w b o).obs = w.obs := by
  cases h : rlookup (w.obbs b).registry o with
  | none => rw [unregisterObserver_noentry h]
  | some c => rw [unregisterObserver_entry h]

/-! ## Preservation of the structural invariants -/

theorem SWF.strongFresh {w : World} (h : SWF w) :
    ∀ c ∈ w.strongRefs, c.1 < w.nextConn := by
  intro c hc
  obtain ⟨b, hb⟩ := h.strongReg c hc
  exact h.connFresh b c (h.regConn b c.2 c hb)

theorem nextConn_registerObserver_new {w : World} {b o : Nat}
    (h : rlookup (w.obbs b).registry o = none) :
    (registerObserver w b o).nextConn = w.nextConn + 1 := by
  rw [registerObserver_new h]

theorem strongRefs_registerObserver_new {w : World} {b o : Nat}
    (h : rlookup (w.obbs b).registry o = none) :
    (registerObserver w b o).strongRefs = (w.nextConn, o) :: w.strongRefs := by
  rw [registerObserver_new h]

theorem getReg_registerObserver_new {w : World} {b o : Nat}
    (h : rlookup (w.obbs b).registry o = none) (b' : Nat) :
    getReg (registerObserver w b o) b' =
      if b' = b then getReg w b ++ [(o, (w.nextConn, o))] else getReg w b' := by
  rw [registerObserver_new h]
  by_cases hb : b' = b <;> simp [getReg, hb]

theorem getConns_registerObserver_new {w : World} {b o : Nat}
    (h : rlookup (w.obbs b).registry o = none) (b' : Nat) :
    getConns (registerObserver w b o) b' =
      if b' = b then getConns w b ++ [(w.nextConn, o)] else getConns w b' := by
  rw [registerObserver_new h]
  by_cases hb : b' = b <;> simp [getConns, SignalSt.connect, hb]

theorem nextConn_unregisterObserver_entry {w : World} {b o : Nat} {c : Conn}
    (h : rlookup (w.obbs b).registry o = some c) :
    (unregisterObserver w b o).nextConn = w.nextConn := by
  rw [unregisterObserver_entry h]

theorem strongRefs_unregisterObserver_entry {w : World} {b o : Nat} {c : Conn}
    (h : rlookup (w.obbs b).registry o = some c) :
    (unregisterObserver w b o).strongRefs = w.strongRefs.erase c := by
  rw [unregisterObserver_entry h]

theorem getReg_unregisterObserver_entry {w : World} {b o : Nat} {c : Conn}
    (h : rlookup (w.obbs b).registry o = some c) (b' : Nat) :
    getReg (unregisterObserver w b o) b' =
      if b' = b then (getReg w b).filter (fun e => !(e.1 == o))
      else getReg w b' := by
  rw [unregisterObserver_entry h]
  by_cases hb : b' = b <;> simp [getReg, hb]

theorem getConns_unregisterObserver_entry {w : World} {b o : Nat} {c : Conn}
    (h : rlookup (w.obbs b).registry o = some c) (b' : Nat) :
    getConns (unregisterObserver w b o) b' =
      if b' = b then (getConns w b).filter (fun c' => !(live w c' && c' == c))
      else getConns w b' := by
  rw [unregisterObserver_entry h]
  by_cases hb : b' = b <;> simp [getConns, SignalSt.disconnect, hb]

theorem swf_registerObserver {w : World} (h : SWF w) (b o : Nat) :
    SWF (registerObserver w b o) := by
  cases hl : rlookup (w.obbs b).registry o with
  | some c => rw [registerObserver_found hl]; exact h
  | none =>
  have hko : o ∉ rkeys (getReg w b) := by
    simpa [getReg] using rlookup_eq_none_iff.mp hl
  have hcs : (w.nextConn, o) ∉ w.strongRefs := fun hc => by
    have := h.strongFresh _ hc; simp at this
  have hcc : ∀ b', (w.nextConn, o) ∉ getConns w b' := fun b' hc => by
    have := h.connFresh b' _ hc; simp at this
  have hreg := getReg_registerObserver_new hl
  have hconns := getConns_registerObserver_new hl
  have hstrong := strongRefs_registerObserver_new hl
  have hnext := nextConn_registerObserver_new hl
  constructor
  · rw [hstrong]
    exact List.nodup_cons.mpr ⟨hcs, h.strongNodup⟩
  · intro b'
    rw [hreg b']
    by_cases hb' : b' = b
    · subst hb'
      rw [if_pos rfl]
      have hk : rkeys (getReg w b' ++ [(o, (w.nextConn, o))]) =
          rkeys (getReg w b') ++ [o] := by simp [rkeys]
      rw [hk, List.nodup_append]
      exact ⟨h.keysNodup b', List.nodup_singleton o, by simpa using hko⟩
    · rw [if_neg hb']
      exact h.keysNodup b'
  · intro b'
    rw [hconns b']
    by_cases hb' : b' = b
    · subst hb'
      rw [if_pos rfl, List.nodup_append]
      exact ⟨h.connsNodup b', List.nodup_singleton _, by simpa using hcc b'⟩
    · rw [if_neg hb']
      exact h.connsNodup b'
  · intro b' o' c' hm
    rw [hreg b'] at hm
    by_cases hb' : b' = b
    · rw [if_pos hb'] at hm
      rcases List.mem_append.mp hm with hm | hm
      · exact h.regTarget b o' c' hm
      · rcases List.mem_singleton.mp hm with hm
        cases hm; rfl
    · rw [if_neg hb'] at hm
      exact h.regTarget b' o' c' hm
  · intro b' o' c' hm
    rw [hreg b'] at hm
    rw [hconns b']
    by_cases hb' : b' = b
    · rw [if_pos hb'] at hm
      rw [if_pos hb', List.mem_append]
      rcases List.mem_append.mp hm with hm | hm
      · exact Or.inl (h.regConn b o' c' hm)
      · rcases List.mem_singleton.mp hm with hm
        cases hm; simp
    · rw [if_neg hb'] at hm
      rw [if_neg hb']
      exact h.regConn b' o' c' hm
  · intro b' o' c' hm
    rw [hreg b'] at hm
    rw [hstrong]
    by_cases hb' : b' = b
    · rw [if_pos hb'] at hm
      rcases List.mem_append.mp hm with hm | hm
      · exact List.mem_cons_of_mem _ (h.regStrong b o' c' hm)
      · rcases List.mem_singleton.mp hm with hm
        cases hm; exact List.mem_cons_self _ _
    · rw [if_neg hb'] at hm
      exact List.mem_cons_of_mem _ (h.regStrong b' o' c' hm)
  · intro c' hc'
    rw [hstrong] at hc'
    rcases List.mem_cons.mp hc' with rfl | hc'
    · refine ⟨b, ?_⟩
      rw [hreg b, if_pos rfl]
      simp
    · obtain ⟨b', hb'⟩ := h.strongReg c' hc'
      refine ⟨b', ?_⟩
      rw [hreg b']
      by_cases hbb : b' = b
      · subst hbb
        rw [if_pos rfl, List.mem_append]
        exact Or.inl hb'
      · rw [if_neg hbb]
        exact hb'
  · intro b1 b2 o1 o2 c' hm1 hm2
    rw [hreg b1] at hm1
    rw [hreg b2] at hm2
    by_cases h1 : b1 = b
    · rw [if_pos h1] at hm1
      rcases List.mem_append.mp hm1 with hm1 | hm1
      · by_cases h2 : b2 = b
        · rw [h1, h2]
        · rw [if_neg h2] at hm2
          exact h1.trans (h.regValUnique b b2 o1 o2 c' hm1 hm2)
      · rcases List.mem_singleton.mp hm1 with hm1
        cases hm1
        by_cases h2 : b2 = b
        · rw [h1, h2]
        · rw [if_neg h2] at hm2
          exfalso
          have := h.connFresh b2 _ (h.regConn b2 o2 _ hm2)
          simp at this
    · rw [if_neg h1] at hm1
      by_cases h2 : b2 = b
      · rw [if_pos h2] at hm2
        rcases List.mem_append.mp hm2 with hm2 | hm2
        · exact (h.regValUnique b1 b o1 o2 c' hm1 hm2).trans h2.symm
        · rcases List.mem_singleton.mp hm2 with hm2
          cases hm2
          exfalso
          have := h.connFresh b1 _ (h.regConn b1 o1 _ hm1)
          simp at this
      · rw [if_neg h2] at hm2
        exact h.regValUnique b1 b2 o1 o2 c' hm1 hm2
  · intro b' c' hc'
    rw [hconns b'] at hc'
    rw [hnext]
    by_cases hb' : b' = b
    · rw [if_pos hb'] at hc'
      rcases List.mem_append.mp hc' with hc' | hc'
      · have := h.connFresh b c' hc'; omega
      · rcases List.mem_singleton.mp hc' with hc'
        cases hc'; simp
    · rw [if_neg hb'] at hc'
      have := h.connFresh b' c' hc'; omega
  · intro b' c' hc' hs'
    rw [hconns b'] at hc'
    rw [hstrong] at hs'
    rw [hreg b']
    rcases List.mem_cons.mp hs' with rfl | hs'
    · by_cases hb' : b' = b
      · rw [if_pos hb']
        simp
      · exfalso
        rw [if_neg hb'] at hc'
        exact hcc b' hc'
    · by_cases hb' : b' = b
      · rw [if_pos hb'] at hc'
        rw [if_pos hb', List.mem_append]
        rcases List.mem_append.mp hc' with hc' | hc'
        · exact Or.inl (h.liveConnReg b c' (hb' ▸ hc') hs')
        · exfalso
          rcases List.mem_singleton.mp hc' with hc'
          cases hc'
          exact hcs hs'
      · rw [if_neg hb'] at hc'
        rw [if_neg hb']
        exact h.liveConnReg b' c' hc' hs'

theorem swf_unregisterObserver {w : World} (h : SWF w) (b o : Nat) :
    SWF (unregisterObserver w b o) := by
  cases hl : rlookup (w.obbs b).registry o with
  | none => rw [unregisterObserver_noentry hl]; exact h
  | some c0 =>
  have hm0 : (o, c0) ∈ getReg w b := rlookup_mem hl
  have hreg := getReg_unregisterObserver_entry hl
  have hconns := getConns_unregisterObserver_entry hl
  have hstrong := strongRefs_unregisterObserver_entry hl
  have hnext := nextConn_unregisterObserver_entry hl
  have hmem_erase : ∀ x : Conn, x ∈ w.strongRefs.erase c0 ↔
      x ≠ c0 ∧ x ∈ w.strongRefs := fun x => h.strongNodup.mem_erase_iff
  -- an entry whose connection is not `c0` cannot be keyed by `o`
  have hkey_ne : ∀ b' o' c, (o', c) ∈ getReg w b' → b' = b → c ≠ c0 → o' ≠ o := by
    intro b' o' c hm hb hc ho
    subst hb; subst ho
    exact hc (keysNodup_unique (h.keysNodup b') hm hm0)
  -- an entry of observable `b` keyed by an observer other than `o` cannot
  -- hold `c0`
  have hval_ne : ∀ o' , (o', c0) ∈ getReg w b → o' = o := by
    intro o' hm
    have h1 := h.regTarget b o' c0 hm
    have h2 := h.regTarget b o c0 hm0
    omega
  constructor
  · rw [hstrong]
    exact h.strongNodup.erase c0
  · intro b'
    rw [hreg b']
    by_cases hb' : b' = b
    · rw [if_pos hb']
      have hsub : List.Sublist
          (rkeys ((getReg w b).filter (fun e => !(e.1 == o))))
          (rkeys (getReg w b)) :=
        (List.filter_sublist _).map Prod.fst
      exact hsub.nodup (h.keysNodup b)
    · rw [if_neg hb']
      exact h.keysNodup b'
  · intro b'
    rw [hconns b']
    by_cases hb' : b' = b
    · rw [if_pos hb']
      exact ((List.filter_sublist _).nodup (h.connsNodup b))
    · rw [if_neg hb']
      exact h.connsNodup b'
  · intro b' o' c hm
    rw [hreg b'] at hm
    by_cases hb' : b' = b
    · rw [if_pos hb'] at hm
      exact h.regTarget b o' c (List.mem_filter.mp hm).1
    · rw [if_neg hb'] at hm
      exact h.regTarget b' o' c hm
  · intro b' o' c hm
    rw [hreg b'] at hm
    rw [hconns b']
    by_cases hb' : b' = b
    · rw [if_pos hb'] at hm
      rw [if_pos hb']
      obtain ⟨hm, hp⟩ := List.mem_filter.mp hm
      have ho' : o' ≠ o := by simpa using hp
      have hcne : c ≠ c0 := fun hc => ho' (hval_ne o' (hc ▸ hm))
      refine List.mem_filter.mpr ⟨h.regConn b o' c hm, ?_⟩
      simp [hcne]
    · rw [if_neg hb'] at hm
      rw [if_neg hb']
      exact h.regConn b' o' c hm
  · intro b' o' c hm
    rw [hreg b'] at hm
    rw [hstrong, hmem_erase]
    by_cases hb' : b' = b
    · rw [if_pos hb'] at hm
      obtain ⟨hm, hp⟩ := List.mem_filter.mp hm
      have ho' : o' ≠ o := by simpa using hp
      have hcne : c ≠ c0 := fun hc => ho' (hval_ne o' (hc ▸ hm))
      exact ⟨hcne, h.regStrong b o' c hm⟩
    · rw [if_neg hb'] at hm
      have hcne : c ≠ c0 := by
        intro hceq
        have hmm : (o', c0) ∈ getReg w b' := hceq ▸ hm
        exact hb' (h.regValUnique b' b o' o c0 hmm hm0)
      exact ⟨hcne, h.regStrong b' o' c hm⟩
  · intro c hc
    rw [hstrong, hmem_erase] at hc
    obtain ⟨hcne, hc⟩ := hc
    obtain ⟨b'', hb''⟩ := h.strongReg c hc
    refine ⟨b'', ?_⟩
    rw [hreg b'']
    by_cases hbb : b'' = b
    · rw [if_pos hbb]
      have hko : c.2 ≠ o := by
        intro hco
        exact hcne (keysNodup_unique (h.keysNodup b) (hbb ▸ hco ▸ hb'') hm0)
      refine List.mem_filter.mpr ⟨hbb ▸ hb'', ?_⟩
      simp [hko]
    · rw [if_neg hbb]
      exact hb''
  · intro b1 b2 o1 o2 c hm1 hm2
    rw [hreg b1] at hm1
    rw [hreg b2] at hm2
    have hm1' : (o1, c) ∈ getReg w b1 := by
      by_cases h1 : b1 = b
      · rw [if_pos h1] at hm1; rw [h1]; exact (List.mem_filter.mp hm1).1
      · rw [if_neg h1] at hm1; exact hm1
    have hm2' : (o2, c) ∈ getReg w b2 := by
      by_cases h2 : b2 = b
      · rw [if_pos h2] at hm2; rw [h2]; exact (List.mem_filter.mp hm2).1
      · rw [if_neg h2] at hm2; exact hm2
    exact h.regValUnique b1 b2 o1 o2 c hm1' hm2'
  · intro b' c hc
    rw [hconns b'] at hc
    rw [hnext]
    by_cases hb' : b' = b
    · rw [if_pos hb'] at hc
      exact h.connFresh b c (hb' ▸ (List.mem_filter.mp hc).1)
    · rw [if_neg hb'] at hc
      exact h.connFresh b' c hc
  · intro b' c hc hs
    rw [hconns b'] at hc
    rw [hstrong, hmem_erase] at hs
    obtain ⟨hcne, hs⟩ := hs
    rw [hreg b']
    by_cases hb' : b' = b
    · rw [if_pos hb'] at hc
      rw [if_pos hb']
      have hcb : c ∈ getConns w b := (List.mem_filter.mp hc).1
      have hin := h.liveConnReg b c hcb hs
      have hko : c.2 ≠ o := by
        intro hco
        exact hcne (keysNodup_unique (h.keysNodup b) (hco ▸ hin) hm0)
      refine List.mem_filter.mpr ⟨hin, ?_⟩
      simp [hko]
    · rw [if_neg hb'] at hc
      rw [if_neg hb']
      exact h.liveConnReg b' c hc hs

/-! ## Key-membership characterizations -/

theorem mem_keys_registerObserver {w : World} {b o : Nat} (b' o' : Nat) :
    o' ∈ rkeys (getReg (registerObserver w b o) b') ↔
      o' ∈ rkeys (getReg w b') ∨ (b' = b ∧ o' = o) := by
  cases hl : rlookup (w.obbs b).registry o with
  | some c =>
    rw [registerObserver_found hl]
    constructor
    · exact Or.inl
    · rintro (hm | ⟨rfl, rfl⟩)
      · exact hm
      · exact mem_keys_of_mem (rlookup_mem hl)
  | none =>
    rw [getReg_registerObserver_new hl b']
    by_cases hb : b' = b
    · subst hb
      rw [if_pos rfl]
      simp [rkeys]
    · rw [if_neg hb]
      simp [hb]

theorem mem_rkeys_filter {r : List (Nat × Conn)} {o o' : Nat} :
    o' ∈ rkeys (r.filter (fun e => !(e.1 == o))) ↔ o' ∈ rkeys r ∧ o' ≠ o := by
  simp only [rkeys, List.mem_map, List.mem_filter, Bool.not_eq_true',
    beq_eq_false_iff_ne]
  constructor
  · rintro ⟨e, ⟨he, hne⟩, rfl⟩
    exact ⟨⟨e, he, rfl⟩, hne⟩
  · rintro ⟨⟨e, he, rfl⟩, hne⟩
    exact ⟨e, ⟨he, hne⟩, rfl⟩

theorem mem_keys_unregisterObserver {w : World} {b o : Nat} (b' o' : Nat) :
    o' ∈ rkeys (getReg (unregisterObserver w b o) b') ↔
      o' ∈ rkeys (getReg w b') ∧ ¬(b' = b ∧ o' = o) := by
  cases hl : rlookup (w.obbs b).registry o with
  | none =>
    rw [unregisterObserver_noentry hl]
    constructor
    · intro hm
      refine ⟨hm, ?_⟩
      rintro ⟨rfl, rfl⟩
      exact (rlookup_eq_none_iff.mp hl) hm
    · exact And.left
  | some c0 =>
    rw [getReg_unregisterObserver_entry hl b']
    by_cases hb : b' = b
    · subst hb
      rw [if_pos rfl, mem_rkeys_filter]
      constructor
      · rintro ⟨hm, hne⟩
        exact ⟨hm, by simp [hne]⟩
      · rintro ⟨hm, hne⟩
        exact ⟨hm, by simpa using fun ho => hne ⟨rfl, ho⟩⟩
    · rw [if_neg hb]
      simp [hb]

theorem nextConn_unregisterObserver (w : World) (b o : Nat) :
    (unregisterObserver w b o).nextConn = w.nextConn := by
  cases hl : rlookup (w.obbs b).registry o with
  | none => rw [unregisterObserver_noentry hl]
  | some c => rw [unregisterObserver_entry hl]

/-! ## The `applyOp` branch shapes -/

theorem applyOp_birth_new {w : World} {o : Nat} (h : w.obs o = none) :
    applyOp w (.birth o) =
      { w with obs := fun o' => if o' = o then some ⟨[]⟩ else w.obs o' } := by
  simp [applyOp, h]

theorem applyOp_birth_old {w : World} {o : Nat} (h : (w.obs o).isSome) :
    applyOp w (.birth o) = w := by
  simp [applyOp, h]

theorem applyOp_regW_some {w : World} {o b : Nat} {ts : ObserverSt}
    (h : w.obs o = some ts) :
    applyOp w (.regW o b) =
      { registerObserver w b o with
        obs := fun o' =>
          if o' = o then some ⟨insertSet b ts.observables⟩
          else (registerObserver w b o).obs o' } := by
  simp [applyOp, h]

theorem applyOp_regW_none {w : World} {o b : Nat} (h : w.obs o = none) :
    applyOp w (.regW o b) = w := by
  simp [applyOp, h]

theorem applyOp_unregW_some {w : World} {o b : Nat} {ts : ObserverSt}
    (h : w.obs o = some ts) :
    applyOp w (.unregW o b) =
      { unregisterObserver w b o with
        obs := fun o' =>
          if o' = o then some ⟨ts.observables.filter (fun b' => !(b' == b))⟩
          else (unregisterObserver w b o).obs o' } := by
  simp [applyOp, h]

theorem applyOp_unregW_none {w : World} {o b : Nat} (h : w.obs o = none) :
    applyOp w (.unregW o b) = w := by
  simp [applyOp, h]

theorem applyOp_destroy_some {w : World} {o : Nat} {ts : ObserverSt}
    (h : w.obs o = some ts) :
    applyOp w (.destroy o) =
      { ts.observables.foldl (fun w'' b => unregisterObserver w'' b o) w with
        obs := fun o' =>
          if o' = o then none
          else (ts.observables.foldl
            (fun w'' b => unregisterObserver w'' b o) w).obs o' } := by
  simp [applyOp, h]

theorem applyOp_destroy_none {w : World} {o : Nat} (h : w.obs o = none) :
    applyOp w (.destroy o) = w := by
  simp [applyOp, h]

/-! ## Transport of the structural invariants -/

theorem getReg_obs_update (X : World) (f : Nat → Option ObserverSt) (b : Nat) :
    getReg { X with obs := f } b = getReg X b := rfl

theorem getConns_obs_update (X : World) (f : Nat → Option ObserverSt) (b : Nat) :
    getConns { X with obs := f } b = getConns X b := rfl

theorem swf_congr {w w' : World} (hn : w'.nextConn = w.nextConn)
    (hs : w'.strongRefs = w.strongRefs) (hb : w'.obbs = w.obbs)
    (h : SWF w) : SWF w' := by
  have hreg : ∀ b, getReg w' b = getReg w b := fun b => by simp [getReg, hb]
  have hcon : ∀ b, getConns w' b = getConns w b := fun b => by
    simp [getConns, hb]
  constructor
  · rw [hs]; exact h.strongNodup
  · intro b; rw [hreg]; exact h.keysNodup b
  · intro b; rw [hcon]; exact h.connsNodup b
  · intro b o c hm; rw [hreg] at hm; exact h.regTarget b o c hm
  · intro b o c hm; rw [hreg] at hm; rw [hcon]; exact h.regConn b o c hm
  · intro b o c hm; rw [hreg] at hm; rw [hs]; exact h.regStrong b o c hm
  · intro c hc
    rw [hs] at hc
    obtain ⟨b, hb'⟩ := h.strongReg c hc
    exact ⟨b, by rw [hreg]; exact hb'⟩
  · intro b1 b2 o1 o2 c h1 h2
    rw [hreg] at h1 h2
    exact h.regValUnique b1 b2 o1 o2 c h1 h2
  · intro b c hc; rw [hcon] at hc; rw [hn]; exact h.connFresh b c hc
  · intro b c hc hsm
    rw [hcon] at hc; rw [hs] at hsm; rw [hreg]
    exact h.liveConnReg b c hc hsm

/-! ## The destructor's sweep -/

theorem foldl_unreg_obs (o : Nat) (L : List Nat) : ∀ w : World,
    (L.foldl (fun w'' b => unregisterObserver w'' b o) w).obs = w.obs := by
  induction L with
  | nil => intro w; rfl
  | cons b L ih =>
    intro w
    rw [List.foldl_cons, ih, obs_unregisterObserver]

theorem foldl_unreg_swf (o : Nat) (L : List Nat) : ∀ w : World,
    SWF w → SWF (L.foldl (fun w'' b => unregisterObserver w'' b o) w) := by
  induction L with
  | nil => intro w h; exact h
  | cons b L ih =>
    intro w h
    rw [List.foldl_cons]
    exact ih _ (swf_unregisterObserver h b o)

theorem foldl_unreg_keys (o : Nat) (L : List Nat) : ∀ (w : World) (b' o' : Nat),
    (o' ∈ rkeys (getReg
        (L.foldl (fun w'' b => unregisterObserver w'' b o) w) b') ↔
      o' ∈ rkeys (getReg w b') ∧ ¬(b' ∈ L ∧ o' = o)) := by
  induction L with
  | nil => intro w b' o'; simp
  | cons b L ih =>
    intro w b' o'
    rw [List.foldl_cons, ih, mem_keys_unregisterObserver]
    constructor
    · rintro ⟨⟨hm, h1⟩, h2⟩
      refine ⟨hm, ?_⟩
      rintro ⟨hbl, rfl⟩
      rcases List.mem_cons.mp hbl with rfl | hbl
      · exact h1 ⟨rfl, rfl⟩
      · exact h2 ⟨hbl, rfl⟩
    · rintro ⟨hm, h12⟩
      refine ⟨⟨hm, ?_⟩, ?_⟩
      · rintro ⟨rfl, rfl⟩
        exact h12 ⟨List.mem_cons_self _ _, rfl⟩
      · rintro ⟨hbl, rfl⟩
        exact h12 ⟨List.mem_cons_of_mem _ hbl, rfl⟩

/-! ## The tracked set -/

theorem mem_insertSet {b'' b : Nat} {l : List Nat} :
    b'' ∈ insertSet b l ↔ b'' ∈ l ∨ b'' = b := by
  unfold insertSet
  by_cases h : b ∈ l
  · rw [if_pos h]
    constructor
    · exact Or.inl
    · rintro (hm | rfl)
      · exact hm
      · exact h
  · rw [if_neg h]
    simp [List.mem_append]

theorem mem_tracked_filter {b'' b : Nat} {l : List Nat} :
    b'' ∈ l.filter (fun b' => !(b' == b)) ↔ b'' ∈ l ∧ b'' ≠ b := by
  simp [List.mem_filter]

theorem obs_obs_update (X : World) (f : Nat → Option ObserverSt) :
    ({ X with obs := f } : World).obs = f := rfl

/-! ## The global invariant is preserved by every operation -/

theorem wf_applyOp {w : World} (h : WF w) (op : Op) : WF (applyOp w op) := by
  cases op with
  | birth o =>
    cases ho : w.obs o with
    | some ts =>
      rw [applyOp_birth_old (by simp [ho])]
      exact h
    | none =>
      rw [applyOp_birth_new ho]
      refine ⟨swf_congr (by rfl) (by rfl) (by rfl) h.toSWF, ?_, ?_⟩
      · intro o' ts' ho' b''
        simp only [obs_obs_update] at ho'
        rw [getReg_obs_update]
        by_cases hoo : o' = o
        · subst hoo
          rw [if_pos rfl] at ho'
          have hts : ts' = ⟨[]⟩ := (Option.some.inj ho').symm
          subst hts
          refine iff_of_false (by simp) (fun hk => ?_)
          have := h.keysAlive b'' o' hk
          rw [ho] at this
          simp at this
        · rw [if_neg hoo] at ho'
          exact h.mirror o' ts' ho' b''
      · intro b'' o'' hk
        rw [getReg_obs_update] at hk
        simp only [obs_obs_update]
        by_cases hoo : o'' = o
        · simp [hoo]
        · rw [if_neg hoo]
          exact h.keysAlive b'' o'' hk
  | regW o b =>
    cases ho : w.obs o with
    | none => rw [applyOp_regW_none ho]; exact h
    | some ts =>
      rw [applyOp_regW_some ho]
      refine ⟨swf_congr (by rfl) (by rfl) (by rfl) (swf_registerObserver h.toSWF b o), ?_, ?_⟩
      · intro o' ts' ho' b''
        simp only [obs_obs_update] at ho'
        rw [getReg_obs_update, mem_keys_registerObserver b'' o']
        by_cases hoo : o' = o
        · subst hoo
          rw [if_pos rfl] at ho'
          have hts : ts' = ⟨insertSet b ts.observables⟩ :=
            (Option.some.inj ho').symm
          subst hts
          have hm := h.mirror o' ts ho b''
          rw [show (ObserverSt.mk (insertSet b ts.observables)).observables =
            insertSet b ts.observables from rfl, mem_insertSet]
          constructor
          · rintro (hmem | rfl)
            · exact Or.inl (hm.mp hmem)
            · exact Or.inr ⟨rfl, rfl⟩
          · rintro (hk | ⟨rfl, _⟩)
            · exact Or.inl (hm.mpr hk)
            · exact Or.inr rfl
        · rw [if_neg hoo, obs_registerObserver] at ho'
          have hm := h.mirror o' ts' ho' b''
          constructor
          · intro hmem
            exact Or.inl (hm.mp hmem)
          · rintro (hk | ⟨rfl, rfl⟩)
            · exact hm.mpr hk
            · exact absurd rfl hoo
      · intro b'' o'' hk
        rw [getReg_obs_update, mem_keys_registerObserver b'' o''] at hk
        simp only [obs_obs_update]
        by_cases hoo : o'' = o
        · simp [hoo]
        · rcases hk with hk | ⟨rfl, rfl⟩
          · rw [if_neg hoo, obs_registerObserver]
            exact h.keysAlive b'' o'' hk
          · exact absurd rfl hoo
  | unregW o b =>
    cases ho : w.obs o with
    | none => rw [applyOp_unregW_none ho]; exact h
    | some ts =>
      rw [applyOp_unregW_some ho]
      refine ⟨swf_congr (by rfl) (by rfl) (by rfl) (swf_unregisterObserver h.toSWF b o), ?_, ?_⟩
      · intro o' ts' ho' b''
        simp only [obs_obs_update] at ho'
        rw [getReg_obs_update, mem_keys_unregisterObserver b'' o']
        by_cases hoo : o' = o
        · subst hoo
          rw [if_pos rfl] at ho'
          have hts : ts' = ⟨ts.observables.filter (fun b' => !(b' == b))⟩ :=
            (Option.some.inj ho').symm
          subst hts
          have hm := h.mirror o' ts ho b''
          rw [show (ObserverSt.mk (ts.observables.filter
              (fun b' => !(b' == b)))).observables =
            ts.observables.filter (fun b' => !(b' == b)) from rfl,
            mem_tracked_filter]
          constructor
          · rintro ⟨hmem, hne⟩
            refine ⟨hm.mp hmem, ?_⟩
            rintro ⟨rfl, _⟩
            exact hne rfl
          · rintro ⟨hk, hne⟩
            refine ⟨hm.mpr hk, fun hbb => hne ⟨hbb, rfl⟩⟩
        · rw [if_neg hoo, obs_unregisterObserver] at ho'
          have hm := h.mirror o' ts' ho' b''
          constructor
          · intro hmem
            exact ⟨hm.mp hmem, by rintro ⟨_, rfl⟩; exact hoo rfl⟩
          · rintro ⟨hk, _⟩
            exact hm.mpr hk
      · intro b'' o'' hk
        rw [getReg_obs_update, mem_keys_unregisterObserver b'' o''] at hk
        simp only [obs_obs_update]
        by_cases hoo : o'' = o
        · simp [hoo]
        · rw [if_neg hoo, obs_unregisterObserver]
          exact h.keysAlive b'' o'' hk.1
  | destroy o =>
    cases ho : w.obs o with
    | none => rw [applyOp_destroy_none ho]; exact h
    | some ts =>
      rw [applyOp_destroy_some ho]
      refine ⟨swf_congr (by rfl) (by rfl) (by rfl)
        (foldl_unreg_swf o ts.observables w h.toSWF), ?_, ?_⟩
      · intro o' ts' ho' b''
        simp only [obs_obs_update] at ho'
        by_cases hoo : o' = o
        · rw [if_pos hoo] at ho'
          simp at ho'
        · rw [if_neg hoo, foldl_unreg_obs] at ho'
          rw [getReg_obs_update, foldl_unreg_keys o ts.observables w b'' o']
          have hm := h.mirror o' ts' ho' b''
          constructor
          · intro hmem
            exact ⟨hm.mp hmem, by rintro ⟨_, rfl⟩; exact hoo rfl⟩
          · rintro ⟨hk, _⟩
            exact hm.mpr hk
      · intro b'' o'' hk
        rw [getReg_obs_update, foldl_unreg_keys o ts.observables w b'' o''] at hk
        obtain ⟨hk, hnl⟩ := hk
        simp only [obs_obs_update]
        by_cases hoo : o'' = o
        · subst hoo
          exact absurd ⟨(h.mirror o'' ts ho b'').mpr hk, rfl⟩ hnl
        · rw [if_neg hoo, foldl_unreg_obs]
          exact h.keysAlive b'' o'' hk

theorem wf_initWorld : WF initWorld := by
  refine ⟨⟨?_, ?_, ?_, ?_, ?_, ?_, ?_, ?_, ?_, ?_⟩, ?_, ?_⟩
  · simp [initWorld]
  · intro b; simp [initWorld, getReg, rkeys]
  · intro b; simp [initWorld, getConns]
  · intro b o c hm; simp [initWorld, getReg] at hm
  · intro b o c hm; simp [initWorld, getReg] at hm
  · intro b o c hm; simp [initWorld, getReg] at hm
  · intro c hc; simp [initWorld] at hc
  · intro b1 b2 o1 o2 c h1 h2; simp [initWorld, getReg] at h1
  · intro b c hc; simp [initWorld, getConns] at hc
  · intro b c hc _; simp [initWorld, getConns] at hc
  · intro o ts ho; simp [initWorld] at ho
  · intro b o hk; simp [initWorld, getReg, rkeys] at hk

theorem wf_foldl (l : List Op) : ∀ w, WF w → WF (l.foldl applyOp w) := by
  induction l with
  | nil => intro w h; exact h
  | cons op l ih =>
    intro w h
    rw [List.foldl_cons]
    exact ih _ (wf_applyOp h op)

theorem wf_run (ops : List Op) : WF (run ops) :=
  wf_foldl ops initWorld wf_initWorld

theorem wf_reachable {w : World} (h : Reachable w) : WF w := by
  obtain ⟨ops, rfl⟩ := h
  exact wf_run ops

theorem notifyList_eq (w : World) (b : Nat) :
    notifyList w b = ((getConns w b).filter (live w)).map (fun c => c.2) := by
  simp [notifyList, SignalSt.emit, getConns, List.map_map, Function.comp_def]

/-- In a well-formed heap, a registered observer corresponds to exactly one
live connection in its observable's signal, and one notification invokes it
exactly once. -/
theorem subscription_count {w : World} (h : WF w) {b o : Nat}
    (hk : o ∈ rkeys (getReg w b)) :
    ((getConns w b).filter (fun c => live w c && c.2 == o)).length = 1 ∧
    (notifyList w b).count o = 1 := by
  obtain ⟨c0, hc0⟩ := rlookup_isSome_of_mem_keys hk
  have hm0 : (o, c0) ∈ getReg w b := rlookup_mem hc0
  have hc0t : c0.2 = o := h.regTarget b o c0 hm0
  have hc0conn : c0 ∈ getConns w b := h.regConn b o c0 hm0
  have hc0strong : c0 ∈ w.strongRefs := h.regStrong b o c0 hm0
  have hpt : ∀ c ∈ getConns w b, (live w c && c.2 == o) = (c == c0) := by
    intro c hc
    by_cases hcc : c = c0
    · subst hcc
      simp [live, hc0strong, hc0t]
    · have hnot : ¬(live w c = true ∧ c.2 = o) := by
        rintro ⟨hl, ht⟩
        have hs : c ∈ w.strongRefs := by simpa [live] using hl
        have hin := h.liveConnReg b c hc hs
        rw [ht] at hin
        exact hcc (keysNodup_unique (h.keysNodup b) hin hm0)
      cases hl : live w c
      · simp [hcc]
      · have ht : c.2 ≠ o := fun ht => hnot ⟨hl, ht⟩
        simp [hcc, ht]
  have hcnt : List.countP (fun c => c == c0) (getConns w b) = 1 := by
    have hc := count_eq_one_of_nodup_mem (h.connsNodup b) hc0conn
    rw [List.count_eq_countP] at hc
    exact hc
  constructor
  · rw [List.filter_congr hpt, ← List.countP_eq_length_filter]
    exact hcnt
  · rw [notifyList_eq, List.count_eq_countP, List.countP_map,
      List.countP_filter]
    calc List.countP (fun a => ((fun x => x == o) ∘ fun c => c.2) a && live w a)
          (getConns w b)
        = List.countP (fun c => c == c0) (getConns w b) := by
          refine List.countP_congr ?_
          intro c hc
          have := hpt c hc
          constructor
          · intro hx
            simp only [Function.comp, Bool.and_eq_true] at hx
            rw [← this]
            simp [hx.1, hx.2]
          · intro hx
            have hb2 : (live w c && c.2 == o) = true := by rw [this]; exact hx
            simp only [Bool.and_eq_true] at hb2
            simp [Function.comp, hb2.1, hb2.2]
      _ = 1 := hcnt

/-! ## Claim theorems: registration, destruction, mirroring -/

/-- C3: two `registerWith` calls of the same observer `o` with the same
observable `b` (no unregistration in between) leave exactly one registry
entry for `o`, exactly one live subscription in `b`'s signal targeting `o`,
and one subsequent notification invokes `o`'s `onNotify` exactly once. -/
theorem c3_double_registration_single_subscription (w : World) (o b : Nat)
    (ts : ObserverSt) (hw : Reachable w) (ho : w.obs o = some ts) :
    (rkeys (getReg (applyOp (applyOp w (.regW o b)) (.regW o b)) b)).count o
        = 1 ∧
    ((getConns (applyOp (applyOp w (.regW o b)) (.regW o b)) b).filter
      (fun c => live (applyOp (applyOp w (.regW o b)) (.regW o b)) c &&
        c.2 == o)).length = 1 ∧
    (notifyList (applyOp (applyOp w (.regW o b)) (.regW o b)) b).count o
        = 1 := by
  have hwf : WF w := wf_reachable hw
  have hwf1 : WF (applyOp w (.regW o b)) := wf_applyOp hwf _
  have hwf2 : WF (applyOp (applyOp w (.regW o b)) (.regW o b)) :=
    wf_applyOp hwf1 _
  -- after the first registration the key is present
  have hk1 : o ∈ rkeys (getReg (applyOp w (.regW o b)) b) := by
    rw [applyOp_regW_some ho, getReg_obs_update, mem_keys_registerObserver]
    exact Or.inr ⟨rfl, rfl⟩
  -- the second call is on a live observer as well
  have ho1 : (applyOp w (.regW o b)).obs o = some ⟨insertSet b ts.observables⟩ := by
    rw [applyOp_regW_some ho]
    simp [obs_obs_update]
  have hk2 : o ∈ rkeys (getReg (applyOp (applyOp w (.regW o b)) (.regW o b)) b) := by
    rw [applyOp_regW_some ho1, getReg_obs_update, mem_keys_registerObserver]
    exact Or.inl hk1
  have hcounts := subscription_count hwf2 hk2
  refine ⟨?_, hcounts.1, hcounts.2⟩
  exact count_eq_one_of_nodup_mem (hwf2.keysNodup b) hk2

theorem c3_double_registration_single_subscription_witness :
    ((run [Op.birth 0]).obs 0 = some ⟨[]⟩) ∧
    ((rkeys (getReg (applyOp (applyOp (run [Op.birth 0]) (.regW 0 5))
        (.regW 0 5)) 5)).count 0 = 1 ∧
      ((getConns (applyOp (applyOp (run [Op.birth 0]) (.regW 0 5))
          (.regW 0 5)) 5).filter
        (fun c => live (applyOp (applyOp (run [Op.birth 0]) (.regW 0 5))
          (.regW 0 5)) c && c.2 == 0)).length = 1 ∧
      (notifyList (applyOp (applyOp (run [Op.birth 0]) (.regW 0 5))
        (.regW 0 5)) 5).count 0 = 1) :=
  ⟨by decide, c3_double_registration_single_subscription (run [Op.birth 0])
    0 5 ⟨[]⟩ ⟨[Op.birth 0], rfl⟩ (by decide)⟩

/-- C4: destroying an observer `o` while it is still registered calls
`unregisterObserver` on every observable in its tracked set; afterwards no
observable holds a registry entry for `o`, and no notification on any
observable invokes `o` again. -/
theorem c4_destruction_unregisters_everywhere (w : World) (o : Nat)
    (ts : ObserverSt) (b : Nat) (hw : Reachable w) (ho : w.obs o = some ts) :
    (b ∈ ts.observables → o ∉ rkeys (getReg (applyOp w (.destroy o)) b)) ∧
    o ∉ rkeys (getReg (applyOp w (.destroy o)) b) ∧
    (notifyList (applyOp w (.destroy o)) b).count o = 0 := by
  have hwf : WF w := wf_reachable hw
  have hwf' : WF (applyOp w (.destroy o)) := wf_applyOp hwf _
  have hkeys : o ∉ rkeys (getReg (applyOp w (.destroy o)) b) := by
    rw [applyOp_destroy_some ho, getReg_obs_update,
      foldl_unreg_keys o ts.observables w b o]
    rintro ⟨hk, hnl⟩
    exact hnl ⟨(hwf.mirror o ts ho b).mpr hk, rfl⟩
  refine ⟨fun _ => hkeys, hkeys, ?_⟩
  rw [notifyList_eq, List.count_eq_countP, List.countP_map]
  rw [List.countP_eq_zero]
  intro c hc
  simp only [Function.comp, beq_iff_eq]
  intro hco
  obtain ⟨hcm, hcp⟩ := List.mem_filter.mp hc
  have hs : c ∈ (applyOp w (.destroy o)).strongRefs := by
    simpa [live] using hcp
  have hin := hwf'.liveConnReg b c hcm hs
  rw [hco] at hin
  exact hkeys (mem_keys_of_mem hin)

theorem c4_destruction_unregisters_everywhere_witness :
    ((run [Op.birth 0, Op.regW 0 5]).obs 0 = some ⟨[5]⟩) ∧
    ((5 ∈ (ObserverSt.mk [5]).observables →
        0 ∉ rkeys (getReg (applyOp (run [Op.birth 0, Op.regW 0 5])
          (.destroy 0)) 5)) ∧
      0 ∉ rkeys (getReg (applyOp (run [Op.birth 0, Op.regW 0 5])
        (.destroy 0)) 5) ∧
      (notifyList (applyOp (run [Op.birth 0, Op.regW 0 5])
        (.destroy 0)) 5).count 0 = 0) :=
  ⟨by decide, c4_destruction_unregisters_everywhere
    (run [Op.birth 0, Op.regW 0 5]) 0 ⟨[5]⟩ 5
    ⟨[Op.birth 0, Op.regW 0 5], rfl⟩ (by decide)⟩

/-- C9: after every sequence of observer constructions, `registerWith`,
`unregisterWith` and observer destructions, the tracked set of each live
observer mirrors the registries: an observable is in the tracked set
exactly when its registry holds an entry for that observer. -/
theorem c9_tracked_set_mirrors_registries (ops : List Op) (o : Nat)
    (ts : ObserverSt) (b : Nat) (ho : (run ops).obs o = some ts) :
    b ∈ ts.observables ↔ o ∈ rkeys (getReg (run ops) b) :=
  (wf_run ops).mirror o ts ho b

theorem c9_tracked_set_mirrors_registries_witness :
    ((run [Op.birth 0, Op.regW 0 5]).obs 0 = some ⟨[5]⟩) ∧
    (5 ∈ (ObserverSt.mk [5]).observables ↔
      0 ∈ rkeys (getReg (run [Op.birth 0, Op.regW 0 5]) 5)) :=
  ⟨by decide, c9_tracked_set_mirrors_registries [Op.birth 0, Op.regW 0 5]
    0 ⟨[5]⟩ 5 (by decide)⟩

/-! ## Serial numbers versus calendar order -/

theorem cdiv_nonneg_cast {a : Int} (h : 0 ≤ a) (b : Int) :
    cdiv a b = ((a.toNat / b.toNat : Nat) : Int) := by
  simp [cdiv, h]

theorem daysFromCivil_decomp (y : Int) (m d : Nat) :
    daysFromCivil y m d = marchBase (yAdjOf y m) + doyOf m d - 719468 := by
  simp only [daysFromCivil, yAdjOf, eraOf, yoeOf, marchBase, doyOf]
  ring

theorem yoe_bounds (yA : Int) : 0 ≤ yoeOf yA ∧ yoeOf yA < 400 := by
  by_cases h : 0 ≤ yA
  · have h1 : eraOf yA = ((yA.toNat / 400 : Nat) : Int) := by
      unfold eraOf
      rw [if_pos h, cdiv_nonneg_cast h 400]
      norm_num
    unfold yoeOf
    rw [h1]
    omega
  · have h1 : eraOf yA = -(((399 - yA).toNat / 400 : Nat) : Int) := by
      unfold eraOf
      rw [if_neg h]
      unfold cdiv
      rw [if_neg (by omega)]
      have h2 : -(yA - 399) = 399 - yA := by ring
      rw [h2]
      simp
    unfold yoeOf
    rw [h1]
    omega

theorem era_unique {yA e r : Int} (h : yA = e * 400 + r) (h0 : 0 ≤ r)
    (h1 : r < 400) : eraOf yA = e ∧ yoeOf yA = r := by
  obtain ⟨hb0, hb1⟩ := yoe_bounds yA
  have hd : yA = eraOf yA * 400 + yoeOf yA := by unfold yoeOf; ring
  omega

theorem marchBase_eq (yA : Int) :
    marchBase yA = eraOf yA * 146097 + yoeOf yA * 365 +
      (((yoeOf yA).toNat / 4 : Nat) : Int) -
      (((yoeOf yA).toNat / 100 : Nat) : Int) := by
  obtain ⟨h0, _⟩ := yoe_bounds yA
  unfold marchBase
  rw [cdiv_nonneg_cast h0 4, cdiv_nonneg_cast h0 100]
  norm_num

theorem isLeapYear_iff (z : Int) :
    isLeapYear z = true ↔ (z % 4 = 0 ∧ (z % 100 ≠ 0 ∨ z % 400 = 0)) := by
  simp [isLeapYear]

theorem marchBase_succ (yA : Int) :
    marchBase (yA + 1) =
      marchBase yA + 365 + (if isLeapYear (yA + 1) then 1 else 0) := by
  obtain ⟨hq0, hq1⟩ := yoe_bounds yA
  have hdec : yA = eraOf yA * 400 + yoeOf yA := by unfold yoeOf; ring
  by_cases hc : yoeOf yA ≤ 398
  · obtain ⟨he, hy⟩ := era_unique
      (show yA + 1 = eraOf yA * 400 + (yoeOf yA + 1) by omega)
      (by omega) (by omega)
    rw [marchBase_eq, marchBase_eq, he, hy]
    by_cases hb : isLeapYear (yA + 1) = true
    · rw [if_pos hb]
      rw [isLeapYear_iff] at hb
      omega
    · rw [if_neg hb]
      rw [isLeapYear_iff] at hb
      push_neg at hb
      omega
  · have hq : yoeOf yA = 399 := by omega
    obtain ⟨he, hy⟩ := era_unique
      (show yA + 1 = (eraOf yA + 1) * 400 + 0 by omega)
      (by omega) (by omega)
    rw [marchBase_eq, marchBase_eq, he, hy, hq]
    have hb : isLeapYear (yA + 1) = true := by
      rw [isLeapYear_iff]
      omega
    rw [if_pos hb]
    omega

theorem marchBase_le_of_add (n : Nat) : ∀ yA : Int,
    marchBase yA + 365 + (if isLeapYear (yA + 1) then 1 else 0) ≤
      marchBase (yA + 1 + (n : Int)) := by
  induction n with
  | zero =>
    intro yA
    rw [show yA + 1 + ((0 : Nat) : Int) = yA + 1 by simp, marchBase_succ]
  | succ k ih =>
    intro yA
    have h1 := ih yA
    have h2 := marchBase_succ (yA + 1 + (k : Int))
    have h3 : yA + 1 + ((k + 1 : Nat) : Int) = (yA + 1 + (k : Int)) + 1 := by
      push_cast
      ring
    rw [h3, h2]
    have hpos : (0 : Int) ≤
        (if isLeapYear (yA + 1 + (k : Int) + 1) then 1 else 0) := by
      split <;> omega
    omega

theorem marchBase_step_le {y1 y2 : Int} (h : y1 < y2) :
    marchBase y1 + 365 + (if isLeapYear (y1 + 1) then 1 else 0) ≤
      marchBase y2 := by
  have h3 : y2 = y1 + 1 + ((y2 - y1 - 1).toNat : Int) := by omega
  rw [h3]
  exact marchBase_le_of_add _ y1

theorem doy_eq (m d : Nat) (h1 : 1 ≤ m) (h2 : m ≤ 12) :
    doyOf m d =
      (([306, 337, 0, 31, 61, 92, 122, 153, 184, 214, 245, 275].getD
        (m - 1) 0 : Nat) : Int) + (d : Int) - 1 := by
  interval_cases m <;> simp [doyOf, cdiv]

theorem ymdOk_parts {y : Int} {m d : Nat} (h : ymdOk y m d = true) :
    (-32767 ≤ y ∧ y ≤ 32767) ∧ (1 ≤ m ∧ m ≤ 12) ∧
      (1 ≤ d ∧ d ≤ lastDayOfMonth y m) := by
  simp only [ymdOk, yearOk, Bool.and_eq_true, decide_eq_true_eq] at h
  exact ⟨h.1.1.1, h.1.1.2, h.2⟩

theorem lastDayOfMonth_feb (y : Int) :
    lastDayOfMonth y 2 = if isLeapYear y then 29 else 28 := by
  unfold lastDayOfMonth
  by_cases h : isLeapYear y = true <;> simp [h]

/-- Day-of-year bounds for a valid date: months from March on stay within
`[0, 305]`, January and February within `[306, 365]`, and `365` is reached
only by February 29 of a leap year. -/
theorem doy_bounds {y : Int} {m d : Nat} (hok : ymdOk y m d = true) :
    (0 ≤ doyOf m d) ∧
    (3 ≤ m → doyOf m d ≤ 305) ∧
    (m ≤ 2 → 306 ≤ doyOf m d ∧
      doyOf m d ≤ 364 + (if isLeapYear y then 1 else 0)) := by
  obtain ⟨_, ⟨hm1, hm2⟩, hd1, hd2⟩ := ymdOk_parts hok
  rw [doy_eq m d hm1 hm2]
  by_cases hf : m = 2
  · subst hf
    rw [lastDayOfMonth_feb] at hd2
    by_cases hl : isLeapYear y = true <;>
      simp only [hl, if_pos, if_neg, if_true, if_false] <;>
      simp only [hl] at hd2 <;>
      simp at hd2 ⊢ <;>
      omega
  · have hld : lastDayOfMonth y m ≤ 31 := lastDayOfMonth_le y m
    have hli : (0 : Int) ≤ (if isLeapYear y then 1 else 0) := by split <;> omega
    interval_cases m <;> simp at hf ⊢ <;> omega

theorem doy_eq_div (m d : Nat) :
    doyOf m d = (((153 * ((m + 9) % 12) + 2) / 5 : Nat) : Int) +
      (d : Int) - 1 := by
  unfold doyOf
  have hnn : (0 : Int) ≤ 153 * (((m + 9) % 12 : Nat) : Int) + 2 := by omega
  rw [cdiv_nonneg_cast hnn 5]
  have h1 : (153 * (((m + 9) % 12 : Nat) : Int) + 2).toNat =
      153 * ((m + 9) % 12) + 2 := by omega
  rw [h1]
  norm_num

theorem day_bound_30 {y : Int} {m : Nat}
    (h : m = 4 ∨ m = 6 ∨ m = 9 ∨ m = 11) : lastDayOfMonth y m = 30 := by
  rcases h with rfl | rfl | rfl | rfl <;> simp [lastDayOfMonth]

theorem day_bound_feb (y : Int) : lastDayOfMonth y 2 ≤ 29 := by
  rw [lastDayOfMonth_feb]
  split <;> omega

theorem doy_mono_same_side {y : Int} {m1 d1 m2 d2 : Nat}
    (hok1 : ymdOk y m1 d1 = true) (hok2 : ymdOk y m2 d2 = true)
    (hm : m1 < m2) (hside : (3 ≤ m1 ∧ 3 ≤ m2) ∨ (m1 ≤ 2 ∧ m2 ≤ 2)) :
    doyOf m1 d1 < doyOf m2 d2 := by
  obtain ⟨_, ⟨hma1, hmb1⟩, hd11, hd12⟩ := ymdOk_parts hok1
  obtain ⟨_, ⟨hma2, hmb2⟩, hd21, hd22⟩ := ymdOk_parts hok2
  have h31 : d1 ≤ 31 := le_trans hd12 (lastDayOfMonth_le y m1)
  have h30 : (m1 = 4 ∨ m1 = 6 ∨ m1 = 9 ∨ m1 = 11) → d1 ≤ 30 := fun h => by
    rw [day_bound_30 h] at hd12
    exact hd12
  have h29 : m1 = 2 → d1 ≤ 29 := fun h => by
    subst h
    exact le_trans hd12 (day_bound_feb y)
  rw [doy_eq_div, doy_eq_div]
  interval_cases m1 <;> interval_cases m2 <;> omega

/-- The serial number is strictly monotone with respect to calendar
(lexicographic year, month, day) order on valid dates. -/
theorem serial_lt_of_calLt {y1 y2 : Int} {m1 d1 m2 d2 : Nat}
    (h1 : ymdOk y1 m1 d1 = true) (h2 : ymdOk y2 m2 d2 = true)
    (hlt : y1 < y2 ∨ (y1 = y2 ∧ (m1 < m2 ∨ (m1 = m2 ∧ d1 < d2)))) :
    daysFromCivil y1 m1 d1 < daysFromCivil y2 m2 d2 := by
  obtain ⟨hy1, ⟨hma1, hmb1⟩, hd11, hd12⟩ := ymdOk_parts h1
  obtain ⟨hy2, ⟨hma2, hmb2⟩, hd21, hd22⟩ := ymdOk_parts h2
  obtain ⟨hdn1, hdh1, hdl1⟩ := doy_bounds h1
  obtain ⟨hdn2, hdh2, hdl2⟩ := doy_bounds h2
  rw [daysFromCivil_decomp, daysFromCivil_decomp]
  have hAle : yAdjOf y1 m1 ≤ yAdjOf y2 m2 := by
    unfold yAdjOf
    split <;> split <;> omega
  rcases lt_or_eq_of_le hAle with hA | hA
  · have hstep := marchBase_step_le hA
    have hb1 : doyOf m1 d1 ≤ 364 +
        (if isLeapYear (yAdjOf y1 m1 + 1) then 1 else 0) := by
      by_cases hm2' : m1 ≤ 2
      · have hA1 : yAdjOf y1 m1 + 1 = y1 := by
          unfold yAdjOf
          rw [if_pos hm2']
          ring
        rw [hA1]
        exact (hdl1 hm2').2
      · have h305 := hdh1 (by omega)
        have hnn : (0 : Int) ≤
            (if isLeapYear (yAdjOf y1 m1 + 1) then 1 else 0) := by
          split <;> omega
        omega
    omega
  · rw [hA]
    have hdoy : doyOf m1 d1 < doyOf m2 d2 := by
      by_cases hs1 : m1 ≤ 2 <;> by_cases hs2 : m2 ≤ 2
      · have hyy : y1 = y2 := by
          unfold yAdjOf at hA
          rw [if_pos hs1, if_pos hs2] at hA
          omega
        subst hyy
        rcases hlt with hy | ⟨_, hm | ⟨hm, hd⟩⟩
        · omega
        · exact doy_mono_same_side h1 h2 hm (Or.inr ⟨hs1, hs2⟩)
        · subst hm
          rw [doy_eq m1 d1 hma1 hmb1, doy_eq m1 d2 hma2 hmb2]
          omega
      · exfalso
        unfold yAdjOf at hA
        rw [if_pos hs1, if_neg hs2] at hA
        omega
      · have h305 := hdh1 (by omega)
        have h306 := (hdl2 hs2).1
        omega
      · have hyy : y1 = y2 := by
          unfold yAdjOf at hA
          rw [if_neg hs1, if_neg hs2] at hA
          omega
        subst hyy
        rcases hlt with hy | ⟨_, hm | ⟨hm, hd⟩⟩
        · omega
        · exact doy_mono_same_side h1 h2 hm (Or.inl ⟨by omega, by omega⟩)
        · subst hm
          rw [doy_eq m1 d1 hma1 hmb1, doy_eq m1 d2 hma2 hmb2]
          omega
    omega

/-- C8: `Date` comparison operators are defined by comparing serial
numbers; on valid dates the induced equality and strict order agree with
calendar (year, month, day lexicographic) order, the order is total, and
two `Date`s built from the same triple compare equal. -/
theorem c8_comparison_by_serial_is_calendar_order (y1 : Int) (m1 d1 : Nat)
    (y2 : Int) (m2 d2 : Nat)
    (h1 : ymdOk y1 m1 d1 = true) (h2 : ymdOk y2 m2 d2 = true) :
    DateM.eqb (mkDate y1 m1 d1) (mkDate y1 m1 d1) = true ∧
    (DateM.ltb (mkDate y1 m1 d1) (mkDate y2 m2 d2) = true ↔
      calLt (mkDate y1 m1 d1) (mkDate y2 m2 d2)) ∧
    (DateM.eqb (mkDate y1 m1 d1) (mkDate y2 m2 d2) = true ↔
      (y1 = y2 ∧ m1 = m2 ∧ d1 = d2)) ∧
    (DateM.gtb (mkDate y1 m1 d1) (mkDate y2 m2 d2) = true ↔
      calLt (mkDate y2 m2 d2) (mkDate y1 m1 d1)) ∧
    (DateM.leb (mkDate y1 m1 d1) (mkDate y2 m2 d2) = true ↔
      ¬calLt (mkDate y2 m2 d2) (mkDate y1 m1 d1)) ∧
    (DateM.geb (mkDate y1 m1 d1) (mkDate y2 m2 d2) = true ↔
      ¬calLt (mkDate y1 m1 d1) (mkDate y2 m2 d2)) ∧
    (DateM.ltb (mkDate y1 m1 d1) (mkDate y2 m2 d2) = true ∨
      DateM.eqb (mkDate y1 m1 d1) (mkDate y2 m2 d2) = true ∨
      DateM.ltb (mkDate y2 m2 d2) (mkDate y1 m1 d1) = true) := by
  have hcal12 : calLt (mkDate y1 m1 d1) (mkDate y2 m2 d2) ↔
      (y1 < y2 ∨ (y1 = y2 ∧ (m1 < m2 ∨ (m1 = m2 ∧ d1 < d2)))) := Iff.rfl
  have hcal21 : calLt (mkDate y2 m2 d2) (mkDate y1 m1 d1) ↔
      (y2 < y1 ∨ (y2 = y1 ∧ (m2 < m1 ∨ (m2 = m1 ∧ d2 < d1)))) := Iff.rfl
  have hs1 : (mkDate y1 m1 d1).serial = daysFromCivil y1 m1 d1 := rfl
  have hs2 : (mkDate y2 m2 d2).serial = daysFromCivil y2 m2 d2 := rfl
  have hlt12 : calLt (mkDate y1 m1 d1) (mkDate y2 m2 d2) →
      daysFromCivil y1 m1 d1 < daysFromCivil y2 m2 d2 := fun hc =>
    serial_lt_of_calLt h1 h2 (hcal12.mp hc)
  have hlt21 : calLt (mkDate y2 m2 d2) (mkDate y1 m1 d1) →
      daysFromCivil y2 m2 d2 < daysFromCivil y1 m1 d1 := fun hc =>
    serial_lt_of_calLt h2 h1 (hcal21.mp hc)
  have htri : calLt (mkDate y1 m1 d1) (mkDate y2 m2 d2) ∨
      (y1 = y2 ∧ m1 = m2 ∧ d1 = d2) ∨
      calLt (mkDate y2 m2 d2) (mkDate y1 m1 d1) := by
    rw [hcal12, hcal21]
    omega
  refine ⟨?_, ?_, ?_, ?_, ?_, ?_, ?_⟩
  · simp [DateM.eqb]
  · simp only [DateM.ltb, hs1, hs2, decide_eq_true_eq]
    constructor
    · intro hs
      rcases htri with h | ⟨rfl, rfl, rfl⟩ | h
      · exact h
      · exfalso; omega
      · have := hlt21 h; exfalso; omega
    · exact hlt12
  · simp only [DateM.eqb, hs1, hs2, beq_iff_eq]
    constructor
    · intro hs
      rcases htri with h | h | h
      · have := hlt12 h; exfalso; omega
      · exact h
      · have := hlt21 h; exfalso; omega
    · rintro ⟨rfl, rfl, rfl⟩; rfl
  · simp only [DateM.gtb, hs1, hs2, decide_eq_true_eq]
    constructor
    · intro hs
      rcases htri with h | ⟨rfl, rfl, rfl⟩ | h
      · have := hlt12 h; exfalso; omega
      · exfalso; omega
      · exact h
    · exact hlt21
  · simp only [DateM.leb, hs1, hs2, decide_eq_true_eq]
    constructor
    · intro hs hc
      have := hlt21 hc
      omega
    · intro hn
      rcases htri with h | ⟨rfl, rfl, rfl⟩ | h
      · have := hlt12 h; omega
      · omega
      · exact absurd h hn
  · simp only [DateM.geb, hs1, hs2, decide_eq_true_eq]
    constructor
    · intro hs hc
      have := hlt12 hc
      omega
    · intro hn
      rcases htri with h | ⟨rfl, rfl, rfl⟩ | h
      · exact absurd h hn
      · omega
      · have := hlt21 h; omega
  · rcases htri with h | ⟨rfl, rfl, rfl⟩ | h
    · left
      simp only [DateM.ltb, hs1, hs2, decide_eq_true_eq]
      exact hlt12 h
    · right; left
      simp [DateM.eqb]
    · right; right
      simp only [DateM.ltb, hs1, hs2, decide_eq_true_eq]
      exact hlt21 h

theorem c8_comparison_by_serial_is_calendar_order_witness :
    DateM.eqb (mkDate 2023 5 10) (mkDate 2023 5 10) = true ∧
    (DateM.ltb (mkDate 2023 5 10) (mkDate 2023 5 11) = true ↔
      calLt (mkDate 2023 5 10) (mkDate 2023 5 11)) ∧
    (DateM.eqb (mkDate 2023 5 10) (mkDate 2023 5 11) = true ↔
      ((2023 : Int) = 2023 ∧ (5 : Nat) = 5 ∧ (10 : Nat) = 11)) ∧
    (DateM.gtb (mkDate 2023 5 10) (mkDate 2023 5 11) = true ↔
      calLt (mkDate 2023 5 11) (mkDate 2023 5 10)) ∧
    (DateM.leb (mkDate 2023 5 10) (mkDate 2023 5 11) = true ↔
      ¬calLt (mkDate 2023 5 11) (mkDate 2023 5 10)) ∧
    (DateM.geb (mkDate 2023 5 10) (mkDate 2023 5 11) = true ↔
      ¬calLt (mkDate 2023 5 10) (mkDate 2023 5 11)) ∧
    (DateM.ltb (mkDate 2023 5 10) (mkDate 2023 5 11) = true ∨
      DateM.eqb (mkDate 2023 5 10) (mkDate 2023 5 11) = true ∨
      DateM.ltb (mkDate 2023 5 11) (mkDate 2023 5 10) = true) :=
  c8_comparison_by_serial_is_calendar_order 2023 5 10 2023 5 11
    (by decide) (by decide)

end BSCR
